import Mathlib

/-!
Shallow embedding of the arbitrage bot in src/app.py.

Python dicts are embedded as association lists preserving insertion order
(the code relies on dict iteration order for the min-price tie break), and
Python floats as exact rationals.  The fallible exchange API clients are
embedded as function parameters returning an Option, where none stands for
a raised exception.  The wall clock is passed in as an explicit timestamp
string.
-/

/-- Configuration constants from app.py lines 13-16. -/
def min_profit_margin : ℚ := 2 / 1000

/-- Transaction fee constant (0.1%), app.py line 14. -/
def transaction_fee : ℚ := 1 / 1000

/-- Slippage constant (0.05%), app.py line 15. -/
def slippage : ℚ := 5 / 10000

/-- Fixed investment per operation ($100), app.py line 16. -/
def fixed_investment : ℚ := 100

/-- The initial candidate pair list, app.py lines 19-23. -/
def initial_pairs : List String :=
  ["ETH/USDT", "XRP/USDT", "ADA/USDT", "NEAR/USDT",
   "TRON/USDT", "DOT/USDT", "AVAX/USDT", "TON/USDT",
   "ENA/USDT", "AAVE/USDT", "LTC/USDT", "APT/USDT"]

/-- The configured exchange identifiers, in the insertion order of the
`exchanges` dict of app.py lines 26-33. -/
def exchangeNames : List String :=
  ["binance", "kraken", "coinbase", "kucoin", "bitget", "bitfinex"]

/-- One ticker observation: last price and 24h quote volume, either of which
may be absent in the JSON returned by an exchange. -/
structure Ticker where
  last : Option ℚ
  volume : Option ℚ
deriving DecidableEq, Repr

/-- The per-pair price snapshot built by get_prices: one entry per exchange,
none when the fetch raised. -/
abbrev SnapshotSet := List (String × Option Ticker)

/-- The mapping produced by get_prices: pair to snapshot set. -/
abbrev PricesMap := List (String × SnapshotSet)

/-- app.py line 87: keep the exchanges whose fetch succeeded and whose last
price is present; only the last price is consumed downstream. -/
def validPrices (pair_prices : SnapshotSet) : List (String × ℚ) :=
  pair_prices.filterMap fun kv =>
    match kv.2 with
    | some t => t.last.map fun l => (kv.1, l)
    | none => none

/-- app.py line 102: Python min over the dict keys with key = last price;
returns the first entry attaining the minimum (min only replaces the
accumulator on a strictly smaller value). -/
def minByLast (xs : List (String × ℚ)) : Option (String × ℚ) :=
  match xs with
  | [] => none
  | x :: rest => some (rest.foldl (fun acc y => if y.2 < acc.2 then y else acc) x)

/-- The intermediate quantities computed for one pair by
calculate_arbitrage (app.py lines 97-116), before the qualification
filter of line 119.  none when the pair is skipped at line 93. -/
structure PairCalc where
  buy_exchange : String
  buy_price : ℚ
  sell_exchange : String
  sell_price : ℚ
  adjusted_buy_price : ℚ
  adjusted_sell_price : ℚ
  roi : ℚ
  avg_price : ℚ
  spread : ℚ
deriving DecidableEq, Repr

/-- app.py lines 97-116: the quantities computed once the sell price and the
buy entry have been selected.  valid_prices is the filtered price list of
line 87 (used for the average). -/
def mkPairCalc (sell_price : ℚ) (buy : String × ℚ)
    (valid_prices : List (String × ℚ)) : PairCalc :=
  let adjusted_buy_price := buy.2 * (1 + transaction_fee + slippage)
  let adjusted_sell_price := sell_price * (1 - transaction_fee - slippage)
  let roi := if adjusted_buy_price > 0 then
      ((adjusted_sell_price - adjusted_buy_price) / adjusted_buy_price) * 100 else 0
  let avg_price := (valid_prices.map fun kv => kv.2).sum / (valid_prices.length : ℚ)
  let spread := if avg_price > 0 then (sell_price - buy.2) / avg_price * 100 else 0
  { buy_exchange := buy.1, buy_price := buy.2, sell_exchange := "binance",
    sell_price := sell_price, adjusted_buy_price := adjusted_buy_price,
    adjusted_sell_price := adjusted_sell_price, roi := roi,
    avg_price := avg_price, spread := spread }

/-- app.py lines 87-116: per-pair computation of calculate_arbitrage; the
pair is skipped (line 93) when the reference exchange has no valid price or
no other exchange has one. -/
def pairCompute (pair_prices : SnapshotSet) : Option PairCalc :=
  match (validPrices pair_prices).lookup "binance",
        minByLast ((validPrices pair_prices).filter fun kv => kv.1 ≠ "binance") with
  | some sell_price, some buy => some (mkPairCalc sell_price buy (validPrices pair_prices))
  | _, _ => none

/-- The opportunity record appended to results at app.py lines 123-133. -/
structure Opportunity where
  pair : String
  buy_exchange : String
  buy_price : ℚ
  sell_exchange : String
  sell_price : ℚ
  roi : ℚ
  spread : ℚ
  avg_price : ℚ
  usd_operation_value : ℚ
deriving DecidableEq, Repr

/-- Build the opportunity record of app.py lines 121-133 from the per-pair
computation. -/
def opportunityOf (pair : String) (c : PairCalc) : Opportunity :=
  { pair := pair, buy_exchange := c.buy_exchange, buy_price := c.buy_price,
    sell_exchange := c.sell_exchange, sell_price := c.sell_price,
    roi := c.roi, spread := c.spread, avg_price := c.avg_price,
    usd_operation_value := fixed_investment * (1 + c.roi / 100) }

/-- Per-pair body of calculate_arbitrage including the qualification filter
of app.py line 119: some opportunity when the pair qualifies, none when it
is skipped or does not qualify. -/
def calcPair (pair : String) (pair_prices : SnapshotSet) : Option Opportunity :=
  match pairCompute pair_prices with
  | some c => if c.roi ≥ min_profit_margin * 100 then some (opportunityOf pair c) else none
  | none => none

/-- A ledger entry: the opportunity fields plus the timestamp of app.py
line 146. -/
structure Transaction where
  opp : Opportunity
  timestamp : String
deriving DecidableEq, Repr

/-- app.py lines 82-151: iterate over the prices mapping, collect qualifying
opportunities and append each to the transaction history. -/
def calculate_arbitrage (now : String) (prices : PricesMap)
    (history : List Transaction) : List Opportunity × List Transaction :=
  prices.foldl
    (fun acc pp =>
      match calcPair pp.1 pp.2 with
      | some o => (acc.1 ++ [o], acc.2 ++ [⟨o, now⟩])
      | none => acc)
    ([], history)

/-- app.py lines 45-52: the exchanges whose load_markets call succeeded and
whose market list contains the pair; a raised exception (none) is treated as
the pair not being listed on that exchange. -/
def supported_exchanges (loadMarkets : String → Option (List String))
    (pair : String) : List String :=
  exchangeNames.filter fun e =>
    match loadMarkets e with
    | some markets => decide (pair ∈ markets)
    | none => false

/-- app.py lines 39-60, instrumented: the loop of get_supported_pairs,
also recording every (exchange, pair) load_markets call in a query log.
Accumulator: (supported so far, unsupported set, query log). -/
def get_supported_pairs_full (loadMarkets : String → Option (List String))
    (pairs : List String) (unsupported : List String) :
    List String × List String × List (String × String) :=
  pairs.foldl
    (fun acc pair =>
      if pair ∈ acc.2.1 then acc
      else
        let qs := acc.2.2 ++ exchangeNames.map fun e => (e, pair)
        if 2 ≤ (supported_exchanges loadMarkets pair).length then
          (acc.1 ++ [pair], acc.2.1, qs)
        else
          (acc.1, acc.2.1 ++ [pair], qs))
    ([], unsupported, [])

/-- app.py lines 39-60: returns the supported pairs and the updated
unsupported set. -/
def get_supported_pairs (loadMarkets : String → Option (List String))
    (pairs : List String) (unsupported : List String) :
    List String × List String :=
  ((get_supported_pairs_full loadMarkets pairs unsupported).1,
   (get_supported_pairs_full loadMarkets pairs unsupported).2.1)

/-- The (exchange, pair) load_markets calls issued by get_supported_pairs. -/
def get_supported_pairs_queries (loadMarkets : String → Option (List String))
    (pairs : List String) (unsupported : List String) : List (String × String) :=
  (get_supported_pairs_full loadMarkets pairs unsupported).2.2

/-- app.py lines 62-80: for each pair, fetch the ticker on every configured
exchange; a raised exception stores none for that exchange. -/
def get_prices (fetch : String → String → Option Ticker)
    (pairs : List String) : PricesMap :=
  pairs.map fun pair => (pair, exchangeNames.map fun e => (e, fetch e pair))

/-- The (exchange, pair) fetch_ticker calls issued by get_prices. -/
def get_prices_queries (pairs : List String) : List (String × String) :=
  pairs.foldr (fun pair acc => (exchangeNames.map fun e => (e, pair)) ++ acc) []

/-- The process-wide mutable state of app.py lines 36-37. -/
structure BotState where
  transaction_history : List Transaction
  unsupported_pairs : List String
deriving Repr

/-- get_supported_pairs acting on the process state. -/
def get_supported_pairsS (loadMarkets : String → Option (List String))
    (pairs : List String) (s : BotState) : List String × BotState :=
  let r := get_supported_pairs loadMarkets pairs s.unsupported_pairs
  (r.1, { s with unsupported_pairs := r.2 })

/-- calculate_arbitrage acting on the process state. -/
def calculate_arbitrageS (now : String) (prices : PricesMap)
    (s : BotState) : List Opportunity × BotState :=
  let r := calculate_arbitrage now prices s.transaction_history
  (r.1, { s with transaction_history := r.2 })

/-- The hard-coded simulated opportunity of app.py lines 168-180,
substituted when no real opportunity was found. -/
def simulated_opportunity : Opportunity :=
  { pair := "ETH/USDT", buy_exchange := "kraken", buy_price := 3000,
    sell_exchange := "binance", sell_price := 3020, roi := 67 / 100,
    spread := 45 / 100, avg_price := 3010, usd_operation_value := 10067 / 100 }

/-- The JSON payload of app.py lines 191-195. -/
structure ApiResponse where
  results : List Opportunity
  total_roi : ℚ
  total_usd_operations : ℚ
  transaction_history : List Transaction
deriving Repr

/-- app.py lines 165-195: assembling the JSON payload from the cycle
results and the history: the simulated placeholder is substituted when the
results are empty, and the performance totals are summed over the
history. -/
def mkResponse (results0 : List Opportunity) (history : List Transaction) :
    ApiResponse :=
  { results := if results0.isEmpty then [simulated_opportunity] else results0,
    total_roi := if history.isEmpty then 0
      else (history.map fun tx => tx.opp.roi).sum,
    total_usd_operations := if history.isEmpty then 0
      else (history.map fun tx => tx.opp.usd_operation_value).sum,
    transaction_history := history }

/-- app.py lines 158-195: one query-endpoint cycle, returning the response
and the updated process state. -/
def get_data_api (loadMarkets : String → Option (List String))
    (fetch : String → String → Option Ticker) (now : String)
    (s : BotState) : ApiResponse × BotState :=
  let r1 := get_supported_pairsS loadMarkets initial_pairs s
  let r2 := calculate_arbitrageS now (get_prices fetch r1.1) r1.2
  (mkResponse r2.1 r2.2.transaction_history, r2.2)

/-- One query-endpoint cycle input: the exchange gateway behavior this cycle
and the wall-clock timestamp. -/
structure CycleInput where
  loadMarkets : String → Option (List String)
  fetchTicker : String → String → Option Ticker
  now : String

/-- Iterate query-endpoint cycles over the process state. -/
def runCycles (L : List CycleInput) (s : BotState) : BotState :=
  L.foldl (fun st c => (get_data_api c.loadMarkets c.fetchTicker c.now st).2) s

/-! Specification-side definitions, written from the words of the spec. -/

/-- Modelled from the spec section 4.3 step 5: the ROI formula written the
way the spec states it, to be compared with the engine. -/
def roiSpec (adjustedBuy adjustedSell : ℚ) : ℚ :=
  if adjustedBuy > 0 then 100 * (adjustedSell - adjustedBuy) / adjustedBuy else 0

/-- Modelled from the spec section 4.3 step 6: the spread formula written
the way the spec states it. -/
def spreadSpec (buyPrice sellPrice averagePrice : ℚ) : ℚ :=
  if averagePrice > 0 then 100 * (sellPrice - buyPrice) / averagePrice else 0

/-- Modelled from the spec section 4.3 step 6: arithmetic mean of a list of
last prices. -/
def avgSpec (lasts : List ℚ) : ℚ := lasts.sum / (lasts.length : ℚ)

/-- The ROI the engine assigns as a function of the raw buy and sell prices
alone (app.py lines 106-110); every real opportunity satisfies it, the
hard-coded simulated one does not. -/
def adjustedRoi (buyPrice sellPrice : ℚ) : ℚ :=
  let adjusted_buy_price := buyPrice * (1 + transaction_fee + slippage)
  let adjusted_sell_price := sellPrice * (1 - transaction_fee - slippage)
  if adjusted_buy_price > 0 then
    ((adjusted_sell_price - adjusted_buy_price) / adjusted_buy_price) * 100 else 0

/-! Concrete inputs used by witnesses and counterexamples. -/

/-- A successful ticker with the given last price and absent volume. -/
def tk (l : ℚ) : Option Ticker := some ⟨some l, none⟩

/-- Snapshot of the spec scenario: reference exchange at 3020, one other
exchange at 3000. -/
def psA : SnapshotSet := [("binance", tk 3020), ("kraken", tk 3000)]

/-- The per-pair computation the engine produces on psA. -/
def cA : PairCalc :=
  { buy_exchange := "kraken", buy_price := 3000, sell_exchange := "binance",
    sell_price := 3020, adjusted_buy_price := 6009 / 2,
    adjusted_sell_price := 301547 / 100, roi := 2194 / 6009,
    avg_price := 3010, spread := 200 / 301 }

/-- The opportunity the engine emits on psA. -/
def oppA : Opportunity :=
  { pair := "ETH/USDT", buy_exchange := "kraken", buy_price := 3000,
    sell_exchange := "binance", sell_price := 3020, roi := 2194 / 6009,
    spread := 200 / 301, avg_price := 3010, usd_operation_value := 603094 / 6009 }

/-- Snapshot chosen so that the computed ROI is exactly 0.67 percent and the
operation value exactly 100.67. -/
def psB : SnapshotSet := [("binance", tk (100821005 / 10000)), ("kraken", tk 9985)]

/-- Snapshot chosen so that the computed spread is exactly 0.45 percent. -/
def psC : SnapshotSet :=
  [("binance", tk 3020), ("kraken", tk 3000), ("kucoin", tk (21940 / 3))]

/-- A gateway whose load_markets always raises. -/
def lmNone : String → Option (List String) := fun _ => none

/-- A gateway whose fetch_ticker always raises. -/
def fetchNone : String → String → Option Ticker := fun _ _ => none

/-- The initial process state: empty history, empty unsupported set. -/
def s00 : BotState := ⟨[], []⟩

/-- A gateway listing ETH/USDT on the reference exchange and on kraken. -/
def lm0 : String → Option (List String) := fun e =>
  if e = "binance" ∨ e = "kraken" then some ["ETH/USDT"] else none

/-- A gateway pricing ETH/USDT at 3020 on the reference exchange and 3000 on
kraken, failing elsewhere. -/
def fetch0 : String → String → Option Ticker := fun e pair =>
  if pair = "ETH/USDT" then
    if e = "binance" then tk 3020 else if e = "kraken" then tk 3000 else none
  else none

/-- A full cycle input built from lm0 and fetch0. -/
def cyc0 : CycleInput := ⟨lm0, fetch0, "t0"⟩

/-- The snapshot get_prices builds for ETH/USDT under fetch0. -/
def snapA : SnapshotSet :=
  [("binance", tk 3020), ("kraken", tk 3000), ("coinbase", none),
   ("kucoin", none), ("bitget", none), ("bitfinex", none)]

/-- The candidate pairs other than ETH/USDT, in order. -/
def restPairs : List String :=
  ["XRP/USDT", "ADA/USDT", "NEAR/USDT", "TRON/USDT", "DOT/USDT", "AVAX/USDT",
   "TON/USDT", "ENA/USDT", "AAVE/USDT", "LTC/USDT", "APT/USDT"]

/-! Helper lemmas. -/

/-- Unfolding of the calculate_arbitrage fold: the results are the
qualifying opportunities in pair order and the history grows by exactly
those, each stamped with the supplied timestamp. -/
theorem calculate_arbitrage_eq (now : String) (prices : PricesMap)
    (history : List Transaction) :
    calculate_arbitrage now prices history =
      (prices.filterMap fun pp => calcPair pp.1 pp.2,
       history ++ (prices.filterMap fun pp => calcPair pp.1 pp.2).map
         fun o => (⟨o, now⟩ : Transaction)) := by
  have main : ∀ (l : PricesMap) (r : List Opportunity) (t : List Transaction),
      l.foldl
        (fun acc pp =>
          match calcPair pp.1 pp.2 with
          | some o => (acc.1 ++ [o], acc.2 ++ [⟨o, now⟩])
          | none => acc) (r, t) =
      (r ++ l.filterMap fun pp => calcPair pp.1 pp.2,
       t ++ (l.filterMap fun pp => calcPair pp.1 pp.2).map
         fun o => (⟨o, now⟩ : Transaction)) := by
    intro l
    induction l with
    | nil => intro r t; simp
    | cons pp l ih =>
      intro r t
      cases h : calcPair pp.1 pp.2 with
      | none => simp [List.foldl_cons, h, ih]
      | some o => simp [List.foldl_cons, h, ih]
  simpa [calculate_arbitrage] using main prices [] history

/-- The accumulator fold behind Python min is bounded by the start value
and by every element of the list. -/
theorem foldl_min_le (xs : List (String × ℚ)) : ∀ a : String × ℚ,
    (xs.foldl (fun acc y => if y.2 < acc.2 then y else acc) a).2 ≤ a.2 ∧
      ∀ y ∈ xs, (xs.foldl (fun acc y => if y.2 < acc.2 then y else acc) a).2 ≤ y.2 := by
  induction xs with
  | nil => intro a; exact ⟨le_refl _, by simp⟩
  | cons z rest ih =>
    intro a
    rw [List.foldl_cons]
    by_cases hz : z.2 < a.2
    · rw [if_pos hz]
      obtain ⟨h1, h2⟩ := ih z
      exact ⟨le_trans h1 (le_of_lt hz), by
        intro y hy
        rcases List.mem_cons.mp hy with rfl | hy
        · exact h1
        · exact h2 y hy⟩
    · rw [if_neg hz]
      obtain ⟨h1, h2⟩ := ih a
      exact ⟨h1, by
        intro y hy
        rcases List.mem_cons.mp hy with rfl | hy
        · exact le_trans h1 (le_of_not_lt hz)
        · exact h2 y hy⟩

/-- The accumulator fold behind Python min returns the start value or a list
element. -/
theorem foldl_min_mem (xs : List (String × ℚ)) : ∀ a : String × ℚ,
    xs.foldl (fun acc y => if y.2 < acc.2 then y else acc) a = a ∨
      xs.foldl (fun acc y => if y.2 < acc.2 then y else acc) a ∈ xs := by
  induction xs with
  | nil => intro a; exact Or.inl rfl
  | cons z rest ih =>
    intro a
    rw [List.foldl_cons]
    by_cases hz : z.2 < a.2
    · rw [if_pos hz]
      rcases ih z with h | h
      · exact Or.inr (by simp [h])
      · exact Or.inr (List.mem_cons_of_mem _ h)
    · rw [if_neg hz]
      rcases ih a with h | h
      · exact Or.inl h
      · exact Or.inr (List.mem_cons_of_mem _ h)

/-- minByLast returns an entry of the list attaining the minimal last
price. -/
theorem minByLast_spec {xs : List (String × ℚ)} {b : String × ℚ}
    (h : minByLast xs = some b) : b ∈ xs ∧ ∀ y ∈ xs, b.2 ≤ y.2 := by
  match xs, h with
  | x :: rest, h =>
    have hb : rest.foldl (fun acc y => if y.2 < acc.2 then y else acc) x = b := by
      simpa [minByLast] using h
    obtain ⟨h1, h2⟩ := foldl_min_le rest x
    rw [hb] at h1 h2
    constructor
    · rcases foldl_min_mem rest x with hm | hm
      · rw [hb] at hm; simp [← hm]
      · rw [hb] at hm; exact List.mem_cons_of_mem _ hm
    · intro y hy
      rcases List.mem_cons.mp hy with rfl | hy
      · exact h1
      · exact h2 y hy

/-- minByLast is none exactly on the empty list. -/
theorem minByLast_eq_none {xs : List (String × ℚ)} :
    minByLast xs = none ↔ xs = [] := by
  cases xs <;> simp [minByLast]

/-- Destructuring a successful per-pair computation. -/
theorem pairCompute_some {ps : SnapshotSet} {c : PairCalc}
    (h : pairCompute ps = some c) :
    ∃ s b, (validPrices ps).lookup "binance" = some s ∧
      minByLast ((validPrices ps).filter fun kv => kv.1 ≠ "binance") = some b ∧
      c = mkPairCalc s b (validPrices ps) := by
  unfold pairCompute at h
  split at h
  · rename_i s b h1 h2
    cases h
    exact ⟨s, b, h1, h2, rfl⟩
  · cases h

/-- The per-pair computation succeeds exactly when the reference exchange
has a valid price and some other exchange has one. -/
theorem pairCompute_isSome_iff (ps : SnapshotSet) :
    pairCompute ps ≠ none ↔
      (validPrices ps).lookup "binance" ≠ none ∧
        ((validPrices ps).filter fun kv => kv.1 ≠ "binance") ≠ [] := by
  constructor
  · intro hne
    unfold pairCompute at hne
    split at hne
    · rename_i s b h1 h2
      constructor
      · rw [h1]
        intro hh
        cases hh
      · intro hemp
        rw [hemp] at h2
        simp [minByLast] at h2
    · exact absurd rfl hne
  · rintro ⟨ha, hb⟩
    unfold pairCompute
    split
    · exact fun hh => by cases hh
    · rename_i hmatch
      rcases h1 : (validPrices ps).lookup "binance" with _ | s
    
      · exact absurd h1 ha
      · rcases h2 : minByLast ((validPrices ps).filter fun kv => kv.1 ≠ "binance") with _ | b
        · exact absurd (minByLast_eq_none.mp h2) hb
        · exact (hmatch s b h1 h2).elim

/-- calcPair emits an opportunity exactly when the pair is not skipped and
the computed ROI reaches the configured margin. -/
theorem calcPair_some_iff (pair : String) (ps : SnapshotSet) (o : Opportunity) :
    calcPair pair ps = some o ↔
      ∃ c, pairCompute ps = some c ∧ min_profit_margin * 100 ≤ c.roi ∧
        o = opportunityOf pair c := by
  rcases hc : pairCompute ps with _ | c
  · simp [calcPair, hc]
  · by_cases hq : min_profit_margin * 100 ≤ c.roi
    · simp [calcPair, hc, hq, ge_iff_le, eq_comm]
    · simp [calcPair, hc, hq, ge_iff_le]

/-- Field values of mkPairCalc. -/
theorem mkPairCalc_buy_exchange (s : ℚ) (b : String × ℚ) (vp : List (String × ℚ)) :
    (mkPairCalc s b vp).buy_exchange = b.1 := rfl

theorem mkPairCalc_buy_price (s : ℚ) (b : String × ℚ) (vp : List (String × ℚ)) :
    (mkPairCalc s b vp).buy_price = b.2 := rfl

theorem mkPairCalc_sell_exchange (s : ℚ) (b : String × ℚ) (vp : List (String × ℚ)) :
    (mkPairCalc s b vp).sell_exchange = "binance" := rfl

theorem mkPairCalc_sell_price (s : ℚ) (b : String × ℚ) (vp : List (String × ℚ)) :
    (mkPairCalc s b vp).sell_price = s := rfl

theorem mkPairCalc_adjusted_buy (s : ℚ) (b : String × ℚ) (vp : List (String × ℚ)) :
    (mkPairCalc s b vp).adjusted_buy_price = b.2 * (1 + transaction_fee + slippage) := rfl

theorem mkPairCalc_adjusted_sell (s : ℚ) (b : String × ℚ) (vp : List (String × ℚ)) :
    (mkPairCalc s b vp).adjusted_sell_price = s * (1 - transaction_fee - slippage) := rfl

theorem mkPairCalc_roi (s : ℚ) (b : String × ℚ) (vp : List (String × ℚ)) :
    (mkPairCalc s b vp).roi =
      if (mkPairCalc s b vp).adjusted_buy_price > 0 then
        (((mkPairCalc s b vp).adjusted_sell_price - (mkPairCalc s b vp).adjusted_buy_price) /
          (mkPairCalc s b vp).adjusted_buy_price) * 100
      else 0 := rfl

theorem mkPairCalc_avg (s : ℚ) (b : String × ℚ) (vp : List (String × ℚ)) :
    (mkPairCalc s b vp).avg_price = (vp.map fun kv => kv.2).sum / (vp.length : ℚ) := rfl

theorem mkPairCalc_spread (s : ℚ) (b : String × ℚ) (vp : List (String × ℚ)) :
    (mkPairCalc s b vp).spread =
      if (mkPairCalc s b vp).avg_price > 0 then
        (s - b.2) / (mkPairCalc s b vp).avg_price * 100
      else 0 := rfl

/-- The ROI field of mkPairCalc as a function of the raw prices. -/
theorem mkPairCalc_roi_adjustedRoi (s : ℚ) (b : String × ℚ) (vp : List (String × ℚ)) :
    (mkPairCalc s b vp).roi = adjustedRoi b.2 s := rfl

/-- The supported-pairs loop only appends to the unsupported set, and only
pairs from the input that fewer than 2 exchanges support. -/
theorem gsp_unsupported_grow (lm : String → Option (List String))
    (pairs : List String) :
    ∀ acc : List String × List String × List (String × String),
      ∃ added,
        (pairs.foldl
          (fun acc pair =>
            if pair ∈ acc.2.1 then acc
            else
              let qs := acc.2.2 ++ exchangeNames.map fun e => (e, pair)
              if 2 ≤ (supported_exchanges lm pair).length then
                (acc.1 ++ [pair], acc.2.1, qs)
              else
                (acc.1, acc.2.1 ++ [pair], qs)) acc).2.1 = acc.2.1 ++ added ∧
        ∀ q ∈ added, q ∈ pairs ∧ (supported_exchanges lm q).length < 2 := by
  induction pairs with
  | nil => intro acc; exact ⟨[], by simp, by simp⟩
  | cons p pairs ih =>
    intro acc
    rw [List.foldl_cons]
    by_cases hm : p ∈ acc.2.1
    · rw [if_pos hm]
      obtain ⟨added, h1, h2⟩ := ih acc
      exact ⟨added, h1, fun q hq => ⟨List.mem_cons_of_mem _ (h2 q hq).1, (h2 q hq).2⟩⟩
    · rw [if_neg hm]
      by_cases he : 2 ≤ (supported_exchanges lm p).length
      · rw [if_pos he]
        obtain ⟨added, h1, h2⟩ := ih (acc.1 ++ [p], acc.2.1, acc.2.2 ++ exchangeNames.map fun e => (e, p))
        exact ⟨added, h1, fun q hq => ⟨List.mem_cons_of_mem _ (h2 q hq).1, (h2 q hq).2⟩⟩
      · rw [if_neg he]
        obtain ⟨added, h1, h2⟩ := ih (acc.1, acc.2.1 ++ [p], acc.2.2 ++ exchangeNames.map fun e => (e, p))
        refine ⟨p :: added, by simpa using h1, ?_⟩
        intro q hq
        rcases List.mem_cons.mp hq with rfl | hq
        · exact ⟨List.mem_cons_self _ _, Nat.lt_of_not_le he⟩
        · exact ⟨List.mem_cons_of_mem _ (h2 q hq).1, (h2 q hq).2⟩

/-- A pair in the current unsupported set is never added to the supported
output and never queried by the supported-pairs loop. -/
theorem gsp_skip_no_query (lm : String → Option (List String))
    (pairs : List String) (p : String) :
    ∀ acc : List String × List String × List (String × String), p ∈ acc.2.1 →
      (∀ x ∈ (pairs.foldl
          (fun acc pair =>
            if pair ∈ acc.2.1 then acc
            else
              let qs := acc.2.2 ++ exchangeNames.map fun e => (e, pair)
              if 2 ≤ (supported_exchanges lm pair).length then
                (acc.1 ++ [pair], acc.2.1, qs)
              else
                (acc.1, acc.2.1 ++ [pair], qs)) acc).1, x ∈ acc.1 ∨ x ≠ p) ∧
      (∀ e pr, (e, pr) ∈ (pairs.foldl
          (fun acc pair =>
            if pair ∈ acc.2.1 then acc
            else
              let qs := acc.2.2 ++ exchangeNames.map fun e => (e, pair)
              if 2 ≤ (supported_exchanges lm pair).length then
                (acc.1 ++ [pair], acc.2.1, qs)
              else
                (acc.1, acc.2.1 ++ [pair], qs)) acc).2.2 → (e, pr) ∈ acc.2.2 ∨ pr ≠ p) := by
  induction pairs with
  | nil =>
    intro acc _
    exact ⟨fun x hx => Or.inl hx, fun e pr hpr => Or.inl hpr⟩
  | cons q pairs ih =>
    intro acc hp
    rw [List.foldl_cons]
    by_cases hm : q ∈ acc.2.1
    · rw [if_pos hm]
      exact ih acc hp
    · have hqp : q ≠ p := fun hqp => hm (hqp ▸ hp)
      rw [if_neg hm]
      by_cases he : 2 ≤ (supported_exchanges lm q).length
      · rw [if_pos he]
        obtain ⟨ha, hb⟩ := ih (acc.1 ++ [q], acc.2.1, acc.2.2 ++ exchangeNames.map fun e => (e, q)) hp
        constructor
        · intro x hx
          rcases ha x hx with hx1 | hx1
          · rcases List.mem_append.mp hx1 with hx2 | hx2
            · exact Or.inl hx2
            · simp at hx2
              exact Or.inr (hx2 ▸ hqp)
          · exact Or.inr hx1
        · intro e pr hpr
          rcases hb e pr hpr with hp1 | hp1
          · rcases List.mem_append.mp hp1 with hp2 | hp2
            · exact Or.inl hp2
            · have : pr = q := by
                rcases List.mem_map.mp hp2 with ⟨e2, _, heq⟩
                cases heq
                rfl
              exact Or.inr (this ▸ hqp)
          · exact Or.inr hp1
      · rw [if_neg he]
        obtain ⟨ha, hb⟩ := ih (acc.1, acc.2.1 ++ [q], acc.2.2 ++ exchangeNames.map fun e => (e, q))
          (List.mem_append.mpr (Or.inl hp))
        constructor
        · exact ha
        · intro e pr hpr
          rcases hb e pr hpr with hp1 | hp1
          · rcases List.mem_append.mp hp1 with hp2 | hp2
            · exact Or.inl hp2
            · have : pr = q := by
                rcases List.mem_map.mp hp2 with ⟨e2, _, heq⟩
                cases heq
                rfl
              exact Or.inr (this ▸ hqp)
          · exact Or.inr hp1

/-- The supported output of the loop, characterized as a filter of the
input: a pair is kept exactly when it was not already unsupported at entry
and at least 2 exchanges support it.  The invariant carries the fact that
the evolving unsupported set only ever exceeds the entry set by pairs that
fewer than 2 exchanges support. -/
theorem gsp_supported_filter (lm : String → Option (List String))
    (pairs : List String) (u : List String) :
    ∀ (acc : List String × List String × List (String × String)),
      u ⊆ acc.2.1 →
      (∀ q ∈ acc.2.1, q ∈ u ∨ (supported_exchanges lm q).length < 2) →
      (pairs.foldl
        (fun acc pair =>
          if pair ∈ acc.2.1 then acc
          else
            let qs := acc.2.2 ++ exchangeNames.map fun e => (e, pair)
            if 2 ≤ (supported_exchanges lm pair).length then
              (acc.1 ++ [pair], acc.2.1, qs)
            else
              (acc.1, acc.2.1 ++ [pair], qs)) acc).1 =
      acc.1 ++ pairs.filter
        fun p => decide (p ∉ u) && decide (2 ≤ (supported_exchanges lm p).length) := by
  induction pairs with
  | nil => intro acc _ _; simp
  | cons p pairs ih =>
    intro acc hsub hinv
    rw [List.foldl_cons, List.filter_cons]
    by_cases hm : p ∈ acc.2.1
    · rw [if_pos hm]
      have hpred : (decide (p ∉ u) && decide (2 ≤ (supported_exchanges lm p).length)) = false := by
        rcases hinv p hm with hpu | hpl
        · simp [hpu]
        · simp [Nat.not_le.mpr hpl]
      rw [hpred]
      simp only [Bool.false_eq_true, if_false]
      exact ih acc hsub hinv
    · rw [if_neg hm]
      have hpu : p ∉ u := fun hpu => hm (hsub hpu)
      by_cases he : 2 ≤ (supported_exchanges lm p).length
      · rw [if_pos he]
        have hpred : (decide (p ∉ u) && decide (2 ≤ (supported_exchanges lm p).length)) = true := by
          simp [hpu, he]
        rw [hpred]
        simp only [if_true]
        rw [ih (acc.1 ++ [p], acc.2.1, acc.2.2 ++ exchangeNames.map fun e => (e, p)) hsub hinv]
        simp
      · rw [if_neg he]
        have hpred : (decide (p ∉ u) && decide (2 ≤ (supported_exchanges lm p).length)) = false := by
          simp [Nat.not_le.mp he, Nat.lt_of_not_le he]
        rw [hpred]
        simp only [Bool.false_eq_true, if_false]
        refine ih (acc.1, acc.2.1 ++ [p], acc.2.2 ++ exchangeNames.map fun e => (e, p)) ?_ ?_
        · exact fun q hq => List.mem_append.mpr (Or.inl (hsub hq))
        · intro q hq
          rcases List.mem_append.mp hq with hq1 | hq1
          · exact hinv q hq1
          · simp at hq1
            exact Or.inr (hq1 ▸ Nat.lt_of_not_le he)

/-- Looking up a key in an association list built by mapping a function over
the key list. -/
theorem lookup_map_self {α : Type} (f : String → α) :
    ∀ (pairs : List String) (p : String), p ∈ pairs →
      (pairs.map fun q => (q, f q)).lookup p = some (f p) := by
  intro pairs
  induction pairs with
  | nil => intro p hp; cases hp
  | cons q rest ih =>
    intro p hp
    by_cases hpq : p = q
    · subst hpq
      simp [List.lookup]
    · have hp2 : p ∈ rest := by
        rcases List.mem_cons.mp hp with h | h
        · exact absurd h hpq
        · exact h
      have hbeq : (p == q) = false := beq_eq_false_iff_ne.mpr hpq
      simp [List.lookup, hbeq, ih p hp2]

/-- Counting a pair (e, p) in one per-pair query block. -/
theorem count_block (p : String) (e : String) :
    ∀ (l : List String), l.Nodup → e ∈ l →
      ((l.map fun x => (x, p)).count (e, p)) = 1 := by
  intro l
  induction l with
  | nil => intro _ he; cases he
  | cons x rest ih =>
    intro hnd he
    rw [List.map_cons, List.count_cons]
    by_cases hex : e = x
    · subst hex
      have hnotin : (e, p) ∉ rest.map fun x => (x, p) := by
        intro hmem
        rcases List.mem_map.mp hmem with ⟨y, hy, heq⟩
        cases heq
        exact (List.nodup_cons.mp hnd).1 hy
      rw [List.count_eq_zero.mpr hnotin]
      simp
    · have he2 : e ∈ rest := by
        rcases List.mem_cons.mp he with h | h
        · exact absurd h hex
        · exact h
      have : ((x, p) == (e, p)) = false := by
        simp [Prod.ext_iff]
        intro hxe
        exact absurd hxe.symm hex
      rw [ih (List.nodup_cons.mp hnd).2 he2, this]
      simp

/-- A pair absent from the input generates no queries. -/
theorem count_queries_zero (p : String) (e : String) :
    ∀ pairs : List String, p ∉ pairs → (get_prices_queries pairs).count (e, p) = 0 := by
  intro pairs
  induction pairs with
  | nil => intro _; rfl
  | cons q rest ih =>
    intro hp
    rw [get_prices_queries, List.foldr_cons, List.count_append]
    have h1 : ((exchangeNames.map fun e2 => (e2, q)).count (e, p)) = 0 := by
      rw [List.count_eq_zero]
      intro hmem
      rcases List.mem_map.mp hmem with ⟨y, _, heq⟩
      cases heq
      exact hp (List.mem_cons_self _ _)
    rw [h1, ← get_prices_queries, ih fun hm => hp (List.mem_cons_of_mem _ hm)]

/-- Each exchange is queried exactly once per pair by get_prices. -/
theorem count_queries_one (p : String) (e : String) (he : e ∈ exchangeNames) :
    ∀ pairs : List String, pairs.Nodup → p ∈ pairs →
      (get_prices_queries pairs).count (e, p) = 1 := by
  intro pairs
  induction pairs with
  | nil => intro _ hp; cases hp
  | cons q rest ih =>
    intro hnd hp
    rw [get_prices_queries, List.foldr_cons, List.count_append, ← get_prices_queries]
    by_cases hpq : p = q
    · subst hpq
      rw [count_block p e exchangeNames (by decide) he,
        count_queries_zero p e rest (List.nodup_cons.mp hnd).1]
    · have hp2 : p ∈ rest := by
        rcases List.mem_cons.mp hp with h | h
        · exact absurd h hpq
        · exact h
      have h1 : ((exchangeNames.map fun e2 => (e2, q)).count (e, p)) = 0 := by
        rw [List.count_eq_zero]
        intro hmem
        rcases List.mem_map.mp hmem with ⟨y, _, heq⟩
        cases heq
        exact hpq rfl
      rw [h1, ih (List.nodup_cons.mp hnd).2 hp2]

/-- Engine evaluation on the spec scenario snapshot. -/
theorem pairCompute_psA : pairCompute psA = some cA := by
  simp [pairCompute, validPrices, minByLast, psA, tk, cA, mkPairCalc,
    transaction_fee, slippage, List.lookup]
  norm_num

/-- calcPair on the spec scenario snapshot. -/
theorem calcPair_psA : calcPair "ETH/USDT" psA = some oppA := by
  simp [calcPair, pairCompute, validPrices, minByLast, psA, tk, oppA, mkPairCalc,
    opportunityOf, transaction_fee, slippage, min_profit_margin, fixed_investment,
    List.lookup]
  norm_num

/-- Claim C3: for every pair the engine evaluates (reference and one other
exchange valid), the adjusted prices, ROI, average price and spread match
the formulas of the spec, with the division-by-zero guards yielding 0. -/
theorem claim_C3 (ps : SnapshotSet) (c : PairCalc) (h : pairCompute ps = some c) :
    c.adjusted_buy_price = c.buy_price * (1 + transaction_fee + slippage) ∧
    c.adjusted_sell_price = c.sell_price * (1 - transaction_fee - slippage) ∧
    c.roi = roiSpec c.adjusted_buy_price c.adjusted_sell_price ∧
    c.avg_price = avgSpec ((validPrices ps).map fun kv => kv.2) ∧
    c.spread = spreadSpec c.buy_price c.sell_price c.avg_price := by
  obtain ⟨s, b, h1, h2, rfl⟩ := pairCompute_some h
  refine ⟨rfl, rfl, ?_, ?_, ?_⟩
  · rw [mkPairCalc_roi, roiSpec]
    split_ifs with hpos
    · ring
    · rfl
  · rw [mkPairCalc_avg, avgSpec, List.length_map]
  · rw [mkPairCalc_spread, spreadSpec, mkPairCalc_buy_price, mkPairCalc_sell_price]
    split_ifs with hpos
    · ring
    · rfl

/-- Witness for claim C3 at the spec scenario snapshot. -/
theorem claim_C3_witness :
    pairCompute psA = some cA ∧
    (cA.adjusted_buy_price = cA.buy_price * (1 + transaction_fee + slippage) ∧
     cA.adjusted_sell_price = cA.sell_price * (1 - transaction_fee - slippage) ∧
     cA.roi = roiSpec cA.adjusted_buy_price cA.adjusted_sell_price ∧
     cA.avg_price = avgSpec ((validPrices psA).map fun kv => kv.2) ∧
     cA.spread = spreadSpec cA.buy_price cA.sell_price cA.avg_price) :=
  ⟨pairCompute_psA, claim_C3 psA cA pairCompute_psA⟩

/-- Claim C4: sell side is always the reference exchange at its valid last
price; the buy entry is selected by minByLast, belongs to the non-reference
valid prices and attains their minimum; and the selection is deterministic:
a second evaluation of the same input yields the same buy exchange. -/
theorem claim_C4 (pair : String) (ps : SnapshotSet) (o : Opportunity)
    (h : calcPair pair ps = some o) :
    o.sell_exchange = "binance" ∧
    (validPrices ps).lookup "binance" = some o.sell_price ∧
    minByLast ((validPrices ps).filter fun kv => kv.1 ≠ "binance") =
      some (o.buy_exchange, o.buy_price) ∧
    (o.buy_exchange, o.buy_price) ∈ ((validPrices ps).filter fun kv => kv.1 ≠ "binance") ∧
    (∀ kv ∈ (validPrices ps).filter fun kv => kv.1 ≠ "binance", o.buy_price ≤ kv.2) ∧
    (∀ o2, calcPair pair ps = some o2 → o2.buy_exchange = o.buy_exchange) := by
  obtain ⟨c, hc, hq, rfl⟩ := (calcPair_some_iff pair ps o).mp h
  obtain ⟨s, b, h1, h2, rfl⟩ := pairCompute_some hc
  have hbb : ((opportunityOf pair (mkPairCalc s b (validPrices ps))).buy_exchange,
      (opportunityOf pair (mkPairCalc s b (validPrices ps))).buy_price) = b := rfl
  obtain ⟨hmem, hmin⟩ := minByLast_spec h2
  refine ⟨rfl, h1, ?_, ?_, ?_, ?_⟩
  · rw [hbb]; exact h2
  · rw [hbb]; exact hmem
  · intro kv hkv
    exact hmin kv hkv
  · intro o2 h2'
    rw [h] at h2'
    cases h2'
    rfl

/-- Witness for claim C4 at the spec scenario snapshot. -/
theorem claim_C4_witness :
    calcPair "ETH/USDT" psA = some oppA ∧
    (oppA.sell_exchange = "binance" ∧
     (validPrices psA).lookup "binance" = some oppA.sell_price ∧
     minByLast ((validPrices psA).filter fun kv => kv.1 ≠ "binance") =
       some (oppA.buy_exchange, oppA.buy_price) ∧
     (oppA.buy_exchange, oppA.buy_price) ∈
       ((validPrices psA).filter fun kv => kv.1 ≠ "binance") ∧
     (∀ kv ∈ (validPrices psA).filter fun kv => kv.1 ≠ "binance", oppA.buy_price ≤ kv.2) ∧
     (∀ o2, calcPair "ETH/USDT" psA = some o2 → o2.buy_exchange = oppA.buy_exchange)) :=
  ⟨calcPair_psA, claim_C4 "ETH/USDT" psA oppA calcPair_psA⟩

/-- Claim C5: the results of calculate_arbitrage are exactly the qualifying
opportunities of the pairs in the mapping, the history grows by exactly
those stamped with the cycle timestamp, an opportunity is emitted iff the
computed ROI reaches the configured margin, and the pair is computed at all
iff the reference exchange and at least one other have a valid price. -/
theorem claim_C5 :
    (∀ (now : String) (prices : PricesMap) (history : List Transaction),
      (calculate_arbitrage now prices history).1 =
        prices.filterMap (fun pp => calcPair pp.1 pp.2) ∧
      (calculate_arbitrage now prices history).2 =
        history ++ ((calculate_arbitrage now prices history).1.map
          fun o => (⟨o, now⟩ : Transaction))) ∧
    (∀ (pair : String) (ps : SnapshotSet) (o : Opportunity),
      calcPair pair ps = some o ↔
        ∃ c, pairCompute ps = some c ∧ min_profit_margin * 100 ≤ c.roi ∧
          o = opportunityOf pair c) ∧
    (∀ ps : SnapshotSet,
      pairCompute ps ≠ none ↔
        (validPrices ps).lookup "binance" ≠ none ∧
          ((validPrices ps).filter fun kv => kv.1 ≠ "binance") ≠ []) := by
  refine ⟨?_, calcPair_some_iff, pairCompute_isSome_iff⟩
  intro now prices history
  rw [calculate_arbitrage_eq]
  exact ⟨rfl, rfl⟩

/-- Claim C6: every opportunity the engine constructs has ROI at least the
configured margin, strictly positive buy and sell prices, and an average
price computed over exactly the exchanges with a valid last price. -/
theorem claim_C6 (pair : String) (ps : SnapshotSet) (o : Opportunity)
    (h : calcPair pair ps = some o) :
    min_profit_margin * 100 ≤ o.roi ∧ 0 < o.buy_price ∧ 0 < o.sell_price ∧
    o.avg_price = avgSpec ((validPrices ps).map fun kv => kv.2) := by
  obtain ⟨c, hc, hq, rfl⟩ := (calcPair_some_iff pair ps o).mp h
  obtain ⟨s, b, h1, h2, rfl⟩ := pairCompute_some hc
  have hroi : min_profit_margin * 100 ≤ (mkPairCalc s b (validPrices ps)).roi := hq
  rw [mkPairCalc_roi, mkPairCalc_adjusted_buy, mkPairCalc_adjusted_sell] at hroi
  have hkb : (1 + transaction_fee + slippage) = (2003 : ℚ) / 2000 := by
    norm_num [transaction_fee, slippage]
  have hks : (1 - transaction_fee - slippage) = (1997 : ℚ) / 2000 := by
    norm_num [transaction_fee, slippage]
  rw [hkb, hks, min_profit_margin] at hroi
  split_ifs at hroi with hpos
  · have hb : 0 < b.2 := by linarith
    have h15 : (1 : ℚ) / 500 ≤ (s * ((1997 : ℚ) / 2000) - b.2 * ((2003 : ℚ) / 2000)) /
        (b.2 * ((2003 : ℚ) / 2000)) := by linarith
    have hstep := (le_div_iff₀ hpos).mp h15
    have hs : 0 < s := by linarith
    refine ⟨hq, hb, hs, ?_⟩
    rw [show (opportunityOf pair (mkPairCalc s b (validPrices ps))).avg_price =
      (mkPairCalc s b (validPrices ps)).avg_price from rfl, mkPairCalc_avg, avgSpec,
      List.length_map]
  · norm_num at hroi

/-- Witness for claim C6 at the spec scenario snapshot. -/
theorem claim_C6_witness :
    calcPair "ETH/USDT" psA = some oppA ∧
    (min_profit_margin * 100 ≤ oppA.roi ∧ 0 < oppA.buy_price ∧ 0 < oppA.sell_price ∧
     oppA.avg_price = avgSpec ((validPrices psA).map fun kv => kv.2)) :=
  ⟨calcPair_psA, claim_C6 "ETH/USDT" psA oppA calcPair_psA⟩

/-- Claim C7: the unsupported set only ever grows, only through the filter
and only with input pairs supported by fewer than 2 exchanges; a pair
already unsupported is never output and never queried; and the arbitrage
evaluation never touches the unsupported set. -/
theorem claim_C7 :
    (∀ lm pairs u,
      ∃ added, (get_supported_pairs lm pairs u).2 = u ++ added ∧
        ∀ q ∈ added, q ∈ pairs ∧ (supported_exchanges lm q).length < 2) ∧
    (∀ lm pairs u p, p ∈ u →
      p ∉ (get_supported_pairs lm pairs u).1 ∧
        ∀ e, (e, p) ∉ get_supported_pairs_queries lm pairs u) ∧
    (∀ (now : String) (prices : PricesMap) (s : BotState),
      ((calculate_arbitrageS now prices s).2).unsupported_pairs = s.unsupported_pairs) := by
  refine ⟨?_, ?_, fun now prices s => rfl⟩
  · intro lm pairs u
    obtain ⟨added, h1, h2⟩ := gsp_unsupported_grow lm pairs ([], u, [])
    exact ⟨added, h1, h2⟩
  · intro lm pairs u p hp
    obtain ⟨ha, hb⟩ := gsp_skip_no_query lm pairs p ([], u, []) hp
    constructor
    · intro hmem
      rcases ha p hmem with h | h
      · cases h
      · exact h rfl
    · intro e hmem
      rcases hb e p hmem with h | h
      · cases h
      · exact h rfl

/-- Witness for claim C7: a pair already in the unsupported set is skipped
without queries. -/
theorem claim_C7_witness :
    "ETH/USDT" ∈ (["ETH/USDT"] : List String) ∧
    ("ETH/USDT" ∉ (get_supported_pairs lmNone initial_pairs ["ETH/USDT"]).1 ∧
     ∀ e, (e, "ETH/USDT") ∉ get_supported_pairs_queries lmNone initial_pairs ["ETH/USDT"]) :=
  ⟨by decide, claim_C7.2.1 lmNone initial_pairs ["ETH/USDT"] "ETH/USDT" (by decide)⟩

/-- Claim C8: the eligibility filter returns, in input order, exactly the
not-yet-unsupported pairs that at least 2 exchanges support; and a
load_markets failure on one exchange is equivalent to that exchange listing
no markets at all — it does not disturb the remaining exchanges. -/
theorem claim_C8 :
    (∀ lm pairs u,
      (get_supported_pairs lm pairs u).1 =
        pairs.filter fun p =>
          decide (p ∉ u) && decide (2 ≤ (supported_exchanges lm p).length)) ∧
    (∀ (g : String → Option (List String)) (e₀ p : String),
      supported_exchanges (fun e => if e = e₀ then none else g e) p =
        supported_exchanges (fun e => if e = e₀ then some [] else g e) p) := by
  constructor
  · intro lm pairs u
    have h := gsp_supported_filter lm pairs u ([], u, [])
      (fun q hq => hq) (fun q hq => Or.inl hq)
    simpa using h
  · intro g e₀ p
    unfold supported_exchanges
    apply List.filter_congr
    intro e _
    by_cases h : e = e₀ <;> simp [h]

/-- Claim C9: get_prices returns one entry per input pair in order, each
mapping every configured exchange to the outcome of its single fetch (none
exactly when that fetch failed, affecting no other exchange), and each
exchange is queried exactly once per pair; the aggregator is a total
function, so it never fails. -/
theorem claim_C9 (fetch : String → String → Option Ticker) (pairs : List String)
    (h : pairs.Nodup) :
    (get_prices fetch pairs).map Prod.fst = pairs ∧
    (∀ p ∈ pairs,
      (get_prices fetch pairs).lookup p =
        some (exchangeNames.map fun e => (e, fetch e p))) ∧
    (∀ p : String, (exchangeNames.map fun e => (e, fetch e p)).map Prod.fst = exchangeNames) ∧
    (∀ p : String, ∀ e ∈ exchangeNames,
      (exchangeNames.map fun e2 => (e2, fetch e2 p)).lookup e = some (fetch e p)) ∧
    (∀ p ∈ pairs, ∀ e ∈ exchangeNames, (get_prices_queries pairs).count (e, p) = 1) := by
  refine ⟨?_, ?_, ?_, ?_, ?_⟩
  · simp [get_prices, Function.comp_def]
  · intro p hp
    exact lookup_map_self (fun q => exchangeNames.map fun e => (e, fetch e q)) pairs p hp
  · intro p
    simp [Function.comp_def]
  · intro p e he
    exact lookup_map_self (fun e2 => fetch e2 p) exchangeNames e he
  · intro p hp e he
    exact count_queries_one p e he pairs h hp

/-- Witness for claim C9 on a concrete two-pair list. -/
theorem claim_C9_witness :
    (["ETH/USDT", "XRP/USDT"] : List String).Nodup ∧
    ((get_prices fetch0 ["ETH/USDT", "XRP/USDT"]).map Prod.fst = ["ETH/USDT", "XRP/USDT"] ∧
     (∀ p ∈ (["ETH/USDT", "XRP/USDT"] : List String),
       (get_prices fetch0 ["ETH/USDT", "XRP/USDT"]).lookup p =
         some (exchangeNames.map fun e => (e, fetch0 e p))) ∧
     (∀ p : String,
       (exchangeNames.map fun e => (e, fetch0 e p)).map Prod.fst = exchangeNames) ∧
     (∀ p : String, ∀ e ∈ exchangeNames,
       (exchangeNames.map fun e2 => (e2, fetch0 e2 p)).lookup e = some (fetch0 e p)) ∧
     (∀ p ∈ (["ETH/USDT", "XRP/USDT"] : List String), ∀ e ∈ exchangeNames,
       (get_prices_queries ["ETH/USDT", "XRP/USDT"]).count (e, p) = 1)) :=
  ⟨by decide, claim_C9 fetch0 ["ETH/USDT", "XRP/USDT"] (by decide)⟩

/-- Counterexample to claim C2: on the scenario input (non-reference at
3000, reference at 3020) the engine computes adjusted sell price
301547/100 = 3015.47 and ROI 2194/6009, about 0.365 percent; the claimed
3016.49 and 0.399 are off by more than 1.02 and 0.033 respectively, far
beyond any rounding of the printed digits. -/
theorem claim_C2_counterexample :
    (pairCompute psA).map (fun c => c.adjusted_buy_price) = some (6009 / 2) ∧
    (pairCompute psA).map (fun c => c.adjusted_sell_price) = some (301547 / 100) ∧
    (pairCompute psA).map (fun c => c.roi) = some (2194 / 6009) ∧
    (1 : ℚ) / 100 < 301649 / 100 - 301547 / 100 ∧
    (3 : ℚ) / 100 < 399 / 1000 - 2194 / 6009 := by
  refine ⟨?_, ?_, ?_, by norm_num, by norm_num⟩ <;> rw [pairCompute_psA] <;> rfl

/-- Claim C2 as amended: same scenario, but the adjusted sell
price is 3015.47 and its ROI is 2194/6009, about 0.365 percent, which still
qualifies at the 0.2 percent threshold and produces exactly one
opportunity buying on the non-reference exchange and selling on the
reference exchange. -/
theorem claim_C2_amended :
    pairCompute psA = some cA ∧
    cA.adjusted_buy_price = 6009 / 2 ∧
    cA.adjusted_sell_price = 301547 / 100 ∧
    cA.roi = 2194 / 6009 ∧
    min_profit_margin * 100 ≤ cA.roi ∧
    calculate_arbitrage "t" [("ETH/USDT", psA)] [] = ([oppA], [⟨oppA, "t"⟩]) ∧
    oppA.buy_exchange = "kraken" ∧ oppA.sell_exchange = "binance" := by
  refine ⟨pairCompute_psA, rfl, rfl, rfl, by norm_num [min_profit_margin, cA], ?_, rfl, rfl⟩
  rw [calculate_arbitrage_eq]
  simp [calcPair_psA]

/-- Counterexample to claim C1: the placeholder substitution does happen
(exactly one hard-coded record, so results is non-empty), but that record
carries no marker field: it is a plain Opportunity, and every one of its
field values also occurs in a genuinely computed opportunity (psA matches
its pair, exchanges, prices and average; psB matches its ROI and USD value;
psC matches its spread), so no field distinguishes it from real output. -/
theorem claim_C1_counterexample :
    (get_data_api lmNone fetchNone "t" s00).1.results = [simulated_opportunity] ∧
    (get_data_api lmNone fetchNone "t" s00).1.results.length = 1 ∧
    (calcPair "ETH/USDT" psA).map
        (fun o => (o.pair, o.buy_exchange, o.buy_price, o.sell_exchange,
          o.sell_price, o.avg_price)) =
      some (simulated_opportunity.pair, simulated_opportunity.buy_exchange,
        simulated_opportunity.buy_price, simulated_opportunity.sell_exchange,
        simulated_opportunity.sell_price, simulated_opportunity.avg_price) ∧
    (calcPair "ETH/USDT" psB).map (fun o => (o.roi, o.usd_operation_value)) =
      some (simulated_opportunity.roi, simulated_opportunity.usd_operation_value) ∧
    (calcPair "ETH/USDT" psC).map (fun o => o.spread) =
      some simulated_opportunity.spread := by
  have h0 : (get_data_api lmNone fetchNone "t" s00).1.results = [simulated_opportunity] := by
    simp [get_data_api, get_supported_pairsS, get_supported_pairs,
      get_supported_pairs_full, supported_exchanges, lmNone, fetchNone, s00,
      initial_pairs, exchangeNames, get_prices, calculate_arbitrageS,
      calculate_arbitrage, mkResponse]
  refine ⟨h0, by rw [h0]; rfl, by rw [calcPair_psA]; rfl, ?_, ?_⟩
  · simp [calcPair, pairCompute, validPrices, minByLast, psB, tk, mkPairCalc,
      opportunityOf, transaction_fee, slippage, min_profit_margin, fixed_investment,
      simulated_opportunity, List.lookup]
    norm_num
  · simp [calcPair, pairCompute, validPrices, minByLast, psC, tk, mkPairCalc,
      opportunityOf, transaction_fee, slippage, min_profit_margin, fixed_investment,
      simulated_opportunity, List.lookup]
    norm_num

/-- Claim C1 as amended: when no real opportunity qualifies, the endpoint
substitutes exactly one illustrative placeholder so the results list is
non-empty; the placeholder is an ordinary Opportunity record with no
marker field. -/
theorem claim_C1_amended (lm : String → Option (List String))
    (fetch : String → String → Option Ticker) (now : String) (s : BotState)
    (h : (calculate_arbitrageS now
        (get_prices fetch (get_supported_pairsS lm initial_pairs s).1)
        (get_supported_pairsS lm initial_pairs s).2).1 = []) :
    (get_data_api lm fetch now s).1.results = [simulated_opportunity] ∧
    (get_data_api lm fetch now s).1.results.length = 1 := by
  constructor
  · simp [get_data_api, mkResponse, h]
  · simp [get_data_api, mkResponse, h]

/-- Witness for amended claim C1: with every gateway call failing, no real
opportunity exists and the placeholder is substituted. -/
theorem claim_C1_witness :
    (calculate_arbitrageS "t"
        (get_prices fetchNone (get_supported_pairsS lmNone initial_pairs s00).1)
        (get_supported_pairsS lmNone initial_pairs s00).2).1 = [] ∧
    ((get_data_api lmNone fetchNone "t" s00).1.results = [simulated_opportunity] ∧
     (get_data_api lmNone fetchNone "t" s00).1.results.length = 1) :=
  ⟨by decide, claim_C1_amended lmNone fetchNone "t" s00 (by decide)⟩

/-- Every opportunity the engine emits has an ROI consistent with its own
buy and sell prices and reaching the margin. -/
theorem calcPair_roi_consistent {pair : String} {ps : SnapshotSet} {o : Opportunity}
    (h : calcPair pair ps = some o) :
    o.roi = adjustedRoi o.buy_price o.sell_price ∧ min_profit_margin * 100 ≤ o.roi := by
  obtain ⟨c, hc, hq, rfl⟩ := (calcPair_some_iff pair ps o).mp h
  obtain ⟨s, b, h1, h2, rfl⟩ := pairCompute_some hc
  exact ⟨rfl, hq⟩

/-- The hard-coded simulated opportunity is inconsistent with the ROI the
engine would compute from its own prices (2194/6009 versus 67/100). -/
theorem simulated_roi_inconsistent :
    simulated_opportunity.roi ≠
      adjustedRoi simulated_opportunity.buy_price simulated_opportunity.sell_price := by
  norm_num [adjustedRoi, simulated_opportunity, transaction_fee, slippage]

/-- Projection lemmas for the stateful pipeline. -/
theorem get_supported_pairsS_history (lm : String → Option (List String))
    (pairs : List String) (s : BotState) :
    (get_supported_pairsS lm pairs s).2.transaction_history = s.transaction_history := rfl

theorem calculate_arbitrageS_history (now : String) (prices : PricesMap) (s : BotState) :
    (calculate_arbitrageS now prices s).2.transaction_history =
      (calculate_arbitrage now prices s.transaction_history).2 := rfl

theorem get_data_api_snd (lm : String → Option (List String))
    (fetch : String → String → Option Ticker) (now : String) (s : BotState) :
    (get_data_api lm fetch now s).2 =
      (calculate_arbitrageS now
        (get_prices fetch (get_supported_pairsS lm initial_pairs s).1)
        (get_supported_pairsS lm initial_pairs s).2).2 := rfl

/-- One endpoint cycle grows the history by exactly the qualifying
opportunities. -/
theorem get_data_api_history (lm : String → Option (List String))
    (fetch : String → String → Option Ticker) (now : String) (s : BotState) :
    ∃ added, (get_data_api lm fetch now s).2.transaction_history =
        s.transaction_history ++ added ∧
      ∀ tx ∈ added, ∃ pair ps, calcPair pair ps = some tx.opp := by
  refine ⟨((get_prices fetch (get_supported_pairsS lm initial_pairs s).1).filterMap
      fun pp => calcPair pp.1 pp.2).map fun o => (⟨o, now⟩ : Transaction), ?_, ?_⟩
  · rw [get_data_api_snd, calculate_arbitrageS_history, get_supported_pairsS_history,
      calculate_arbitrage_eq]
  · intro tx htx
    rcases List.mem_map.mp htx with ⟨o, ho, rfl⟩
    rcases List.mem_filterMap.mp ho with ⟨pp, _, hpp⟩
    exact ⟨pp.1, pp.2, hpp⟩

/-- Unfolding one cycle of runCycles. -/
theorem runCycles_cons (c : CycleInput) (L : List CycleInput) (s : BotState) :
    runCycles (c :: L) s =
      runCycles L ((get_data_api c.loadMarkets c.fetchTicker c.now s).2) := by
  rw [runCycles, runCycles, List.foldl_cons]

/-- Iterated cycles grow the history by engine-emitted opportunities only. -/
theorem runCycles_history (L : List CycleInput) :
    ∀ s₀ : BotState,
      ∃ added, (runCycles L s₀).transaction_history = s₀.transaction_history ++ added ∧
        ∀ tx ∈ added, ∃ pair ps, calcPair pair ps = some tx.opp := by
  induction L with
  | nil => intro s₀; exact ⟨[], by simp [runCycles], by simp⟩
  | cons c L ih =>
    intro s₀
    obtain ⟨a1, h1, h2⟩ := get_data_api_history c.loadMarkets c.fetchTicker c.now s₀
    obtain ⟨a2, h3, h4⟩ := ih (get_data_api c.loadMarkets c.fetchTicker c.now s₀).2
    refine ⟨a1 ++ a2, ?_, ?_⟩
    · rw [runCycles_cons, h3, h1, List.append_assoc]
    · intro tx htx
      rcases List.mem_append.mp htx with h | h
      · exact h2 tx h
      · exact h4 tx h

/-- Projection lemmas for the response record. -/
theorem mkResponse_history (results0 : List Opportunity) (history : List Transaction) :
    (mkResponse results0 history).transaction_history = history := rfl

theorem mkResponse_roi (results0 : List Opportunity) (history : List Transaction) :
    (mkResponse results0 history).total_roi =
      if history.isEmpty then 0 else (history.map fun tx => tx.opp.roi).sum := rfl

theorem mkResponse_usd (results0 : List Opportunity) (history : List Transaction) :
    (mkResponse results0 history).total_usd_operations =
      if history.isEmpty then 0
      else (history.map fun tx => tx.opp.usd_operation_value).sum := rfl

theorem get_data_api_fst (lm : String → Option (List String))
    (fetch : String → String → Option Ticker) (now : String) (s : BotState) :
    (get_data_api lm fetch now s).1 =
      mkResponse
        (calculate_arbitrageS now
          (get_prices fetch (get_supported_pairsS lm initial_pairs s).1)
          (get_supported_pairsS lm initial_pairs s).2).1
        (calculate_arbitrageS now
          (get_prices fetch (get_supported_pairsS lm initial_pairs s).1)
          (get_supported_pairsS lm initial_pairs s).2).2.transaction_history := rfl

theorem get_data_api_resp_history (lm : String → Option (List String))
    (fetch : String → String → Option Ticker) (now : String) (s : BotState) :
    (get_data_api lm fetch now s).1.transaction_history =
      (get_data_api lm fetch now s).2.transaction_history := by
  rw [get_data_api_fst, mkResponse_history, get_data_api_snd]

theorem get_data_api_total_roi (lm : String → Option (List String))
    (fetch : String → String → Option Ticker) (now : String) (s : BotState) :
    (get_data_api lm fetch now s).1.total_roi =
      if (get_data_api lm fetch now s).1.transaction_history.isEmpty then 0
      else (((get_data_api lm fetch now s).1.transaction_history).map
        fun tx => tx.opp.roi).sum := by
  rw [get_data_api_fst, mkResponse_roi, mkResponse_history]

theorem get_data_api_total_usd (lm : String → Option (List String))
    (fetch : String → String → Option Ticker) (now : String) (s : BotState) :
    (get_data_api lm fetch now s).1.total_usd_operations =
      if (get_data_api lm fetch now s).1.transaction_history.isEmpty then 0
      else (((get_data_api lm fetch now s).1.transaction_history).map
        fun tx => tx.opp.usd_operation_value).sum := by
  rw [get_data_api_fst, mkResponse_usd, mkResponse_history]

/-- Claim C10: across any sequence of endpoint cycles the ledger grows only
by engine-emitted transactions — each consistent with the ROI its own
prices imply and reaching the margin, hence never the hard-coded simulated
placeholder — and the reported performance totals are the sums of ROI and
USD value over exactly that ledger. -/
theorem claim_C10 :
    (∀ (L : List CycleInput) (s₀ : BotState),
      ∃ added, (runCycles L s₀).transaction_history = s₀.transaction_history ++ added ∧
        ∀ tx ∈ added,
          tx.opp.roi = adjustedRoi tx.opp.buy_price tx.opp.sell_price ∧
          min_profit_margin * 100 ≤ tx.opp.roi ∧
          tx.opp ≠ simulated_opportunity) ∧
    (∀ (lm : String → Option (List String)) (fetch : String → String → Option Ticker)
        (now : String) (s : BotState),
      (get_data_api lm fetch now s).1.transaction_history =
        (get_data_api lm fetch now s).2.transaction_history ∧
      (get_data_api lm fetch now s).1.total_roi =
        (((get_data_api lm fetch now s).1.transaction_history).map
          fun tx => tx.opp.roi).sum ∧
      (get_data_api lm fetch now s).1.total_usd_operations =
        (((get_data_api lm fetch now s).1.transaction_history).map
          fun tx => tx.opp.usd_operation_value).sum) := by
  constructor
  · intro L s₀
    obtain ⟨added, h1, h2⟩ := runCycles_history L s₀
    refine ⟨added, h1, ?_⟩
    intro tx htx
    obtain ⟨pair, ps, hps⟩ := h2 tx htx
    obtain ⟨hcons, hq⟩ := calcPair_roi_consistent hps
    refine ⟨hcons, hq, ?_⟩
    intro heq
    rw [heq] at hcons
    exact simulated_roi_inconsistent hcons
  · intro lm fetch now s
    refine ⟨get_data_api_resp_history lm fetch now s, ?_, ?_⟩
    · rw [get_data_api_total_roi]
      rcases hl : (get_data_api lm fetch now s).1.transaction_history with _ | ⟨t, ts⟩
      · simp
      · simp
    · rw [get_data_api_total_usd]
      rcases hl : (get_data_api lm fetch now s).1.transaction_history with _ | ⟨t, ts⟩
      · simp
      · simp

/-- calcPair on the full six-exchange snapshot of the witness cycle. -/
theorem calcPair_snapA : calcPair "ETH/USDT" snapA = some oppA := by
  simp [calcPair, pairCompute, validPrices, minByLast, snapA, tk, oppA, mkPairCalc,
    opportunityOf, transaction_fee, slippage, min_profit_margin, fixed_investment,
    List.lookup]
  norm_num

/-- Witness for claim C10: one cycle that emits a real opportunity appends
exactly it, and it differs from the simulated placeholder. -/
theorem claim_C10_witness :
    (⟨oppA, "t0"⟩ : Transaction) ∈ (runCycles [cyc0] s00).transaction_history ∧
    oppA ≠ simulated_opportunity := by
  have e12 : get_prices fetch0 (get_supported_pairsS lm0 initial_pairs s00).1 =
      [("ETH/USDT", snapA)] := by decide
  have hh : (runCycles [cyc0] s00).transaction_history = [⟨oppA, "t0"⟩] := by
    rw [show runCycles [cyc0] s00 = (get_data_api lm0 fetch0 "t0" s00).2 from rfl,
      get_data_api_snd, calculate_arbitrageS_history, get_supported_pairsS_history,
      e12, calculate_arbitrage_eq]
    simp [calcPair_snapA, s00]
  obtain ⟨added, h1, h2⟩ := claim_C10.1 [cyc0] s00
  rw [hh] at h1
  have hadd : added = [⟨oppA, "t0"⟩] := by
    have : s00.transaction_history = [] := rfl
    rw [this] at h1
    simpa using h1.symm
  constructor
  · rw [hh]
    exact List.mem_singleton_self _
  · exact (h2 ⟨oppA, "t0"⟩ (by rw [hadd]; exact List.mem_singleton_self _)).2.2
